import Mathlib

/-! CustomDisabledIconEngine (RedPandaIDE/widgets/customdisablediconengine.cpp)

A shallow embedding of the icon engine that keeps a source pixmap together with a
gray, darkened "disabled" variant of it, and the properties of that code.

Conventions of the embedding:

* The toolkit (Qt) is not part of the repository.  Its types and functions are given
  here by their documented behaviour, as far as the engine uses them; each is marked
  "Toolkit" in its description.

* A pixmap or image is a `width × height` grid of RGBA pixels with 8-bit channels, as
  seen through the toolkit's `pixelColor` / `setPixelColor`.  The toolkit conversions
  `QPixmap::toImage` and `QPixmap::fromImage` are taken to preserve that grid.
* C++ `double` is IEEE-754 binary64 with round-to-nearest, ties-to-even, every
  operation rounded on its own (no extended precision, no fused multiply-add).  All
  values of the luma expression lie in `[0, 256)` and every non-zero one is at least
  `0.114`, so each of them is an integer multiple of `2^-56`: a double `d` is
  represented by the natural number `d * 2^56`.
* C++ `int` values that occur (coordinates, sizes, channels) are never negative and
  stay far below `2^31`; they are natural numbers.
-/

namespace RedPanda

/-! ## IEEE-754 binary64 arithmetic on multiples of `2^-56` -/

/-- Scale of the fixed-point representation of doubles: the natural number `n` stands
for the real number `n / 2^56`. -/
def doubleScale : Nat := 2 ^ 56

/-- Number of low-order bits of `n` that do not fit a 53-bit significand: the least `k`
with `n / 2^k < 2^53`.  The counter bounds the search; 64 steps cover every
`n < 2^117`, and the values of this development are below `2^64`. -/
def excessBits : Nat → Nat → Nat
  | 0, _ => 0
  | fuel + 1, n => if n < 2 ^ 53 then 0 else excessBits fuel (n / 2) + 1

/-- Round-to-nearest, ties-to-even, to a 53-bit significand.  `n` is an exact value (in
units of `2^-56`); the result is the nearest binary64 value in the same units. -/
def roundDouble (n : Nat) : Nat :=
  let sh := excessBits 64 n
  let q := n / 2 ^ sh
  let r := n % 2 ^ sh
  if 2 * r < 2 ^ sh then q * 2 ^ sh
  else if 2 * r = 2 ^ sh ∧ q % 2 = 0 then q * 2 ^ sh
  else (q + 1) * 2 ^ sh

/-- The literal `0.299` as a double: `0x1.322d0e5604189p-2`, in units of `2^-56`. -/
def lit0299 : Nat := 21545220617340452

/-- The literal `0.587` as a double: `0x1.2c8b439581062p-1`, in units of `2^-56`. -/
def lit0587 : Nat := 42297807700263696

/-- The literal `0.114` as a double: `0x1.d2f1a9fbe76c9p-4`, in units of `2^-56`. -/
def lit0114 : Nat := 8214565720323785

/-- Product `lit * i` of a double literal and an `int` converted to double (the
conversion is exact), rounded. -/
def doubleMulInt (lit : Nat) (i : Nat) : Nat := roundDouble (lit * i)

/-- Sum of two doubles, rounded. -/
def doubleAdd (a b : Nat) : Nat := roundDouble (a + b)

/-- Conversion of a non-negative double to `int`: truncation toward zero. -/
def doubleToInt (d : Nat) : Nat := d / doubleScale

/-- Line 58 of the source:
`int gray = 0.299 * c.red() + 0.587 * c.green() + 0.114 * c.blue();`
The expression is `((0.299*r) + (0.587*g)) + (0.114*b)` in double arithmetic; the
initialisation of the `int` truncates. -/
def grayOf (red green blue : Nat) : Nat :=
  doubleToInt
    (doubleAdd (doubleAdd (doubleMulInt lit0299 red) (doubleMulInt lit0587 green))
      (doubleMulInt lit0114 blue))

/-! ## Toolkit types used by the engine -/

/-- Toolkit `QIcon::Mode`. -/
inductive Mode where
  | Normal
  | Disabled
  | Active
  | Selected
  deriving DecidableEq, Repr

/-- Toolkit `QIcon::State`. -/
inductive State where
  | On
  | Off
  deriving DecidableEq, Repr

/-- Toolkit `QSize`: a width and a height. -/
structure QSize where
  width : Nat
  height : Nat
  deriving DecidableEq, Repr

/-- Toolkit `QRect`: position and extent of a rectangle. -/
structure QRect where
  x : Int
  y : Int
  width : Nat
  height : Nat
  deriving DecidableEq, Repr

/-- Toolkit `QRgb`: one stored pixel, four 8-bit channels. -/
structure QRgb where
  red : Fin 256
  green : Fin 256
  blue : Fin 256
  alpha : Fin 256
  deriving DecidableEq, Repr

/-- Toolkit `QColor`, as far as the engine uses it: a validity flag and the four channels read
by `red()`, `green()`, `blue()`, `alpha()`. -/
structure QColor where
  valid : Bool
  red : Nat
  green : Nat
  blue : Nat
  alpha : Nat
  deriving DecidableEq, Repr

namespace QColor

/-- Toolkit `QColor()`: the invalid color (channels read as 0, 0, 0, 255). -/
def invalid : QColor := ⟨false, 0, 0, 0, 255⟩

/-- Toolkit `QColor(QRgb)` as built by `QImage::pixelColor`: a valid color with the channels
of the stored pixel. -/
def fromRgb (p : QRgb) : QColor := ⟨true, p.red.val, p.green.val, p.blue.val, p.alpha.val⟩

/-- Toolkit `QColor(int r, int g, int b, int a)`: the color is valid when every argument lies
in 0..255 and is left invalid otherwise. -/
def fromRgba (r g b a : Nat) : QColor :=
  if r ≤ 255 ∧ g ≤ 255 ∧ b ≤ 255 ∧ a ≤ 255 then ⟨true, r, g, b, a⟩ else invalid

/-- Toolkit `QColor::isValid()`. -/
def isValid (c : QColor) : Bool := c.valid

/-- Default argument of `QColor::darker(int factor = 200)`. -/
def darkerFactor : Nat := 200

/-- Modelled from the spec: `QColor::darker()` is a toolkit function whose code is not
part of this repository.  The spec gives it as "scale RGB by a fixed factor ...
`factor = 200`, producing `channel' = channel * 100 / factor`, leaving alpha
unchanged".  An invalid color stays invalid. -/
def darker (c : QColor) : QColor :=
  if c.valid then
    ⟨true, c.red * 100 / darkerFactor, c.green * 100 / darkerFactor,
      c.blue * 100 / darkerFactor, c.alpha⟩
  else c

/-- Toolkit `QColor::rgba()`: the color packed into 8-bit channels (each masked to 8 bits). -/
def rgba (c : QColor) : QRgb :=
  ⟨Fin.ofNat c.red, Fin.ofNat c.green, Fin.ofNat c.blue, Fin.ofNat c.alpha⟩

end QColor

/-- Toolkit `QImage`: a `width × height` grid of pixels; `data x y` is the pixel in column `x`
of row `y`.  Only coordinates with `x < width` and `y < height` belong to the image
(`pixelColor` and `setPixelColor` reach no others). -/
structure QImage where
  width : Nat
  height : Nat
  data : Nat → Nat → QRgb

namespace QImage

/-- Toolkit `QImage(const QSize &size, QImage::Format_ARGB32)`: an image of the given size.
The toolkit leaves its pixels uninitialised; they are represented by one fixed pixel
value; `pixelLoop_initial_irrelevant` shows that the loop overwrites every pixel, so
that the result does not depend on what the image held before. -/
def create (size : QSize) : QImage :=
  ⟨size.width, size.height, fun _ _ => ⟨0, 0, 0, 0⟩⟩

/-- Toolkit `QImage::pixelColor(x, y)`: the color of the pixel at `(x, y)`, an invalid color
when the coordinate is outside the image. -/
def pixelColor (img : QImage) (x y : Nat) : QColor :=
  if x < img.width ∧ y < img.height then QColor.fromRgb (img.data x y) else QColor.invalid

/-- Toolkit `QImage::setPixelColor(x, y, c)`: stores `c` at `(x, y)`; nothing is stored when the
coordinate is outside the image or the color is invalid. -/
def setPixelColor (img : QImage) (x y : Nat) (c : QColor) : QImage :=
  if x < img.width ∧ y < img.height ∧ c.isValid then
    { img with data := fun i j => if i = x ∧ j = y then c.rgba else img.data i j }
  else img

end QImage

/-- Toolkit `QPixmap`: holds an image. -/
structure QPixmap where
  image : QImage

namespace QPixmap

/-- Toolkit `QPixmap()`: the null pixmap, of size 0 × 0. -/
def null : QPixmap := ⟨⟨0, 0, fun _ _ => ⟨0, 0, 0, 0⟩⟩⟩

/-- Toolkit `QPixmap::width()`. -/
def width (p : QPixmap) : Nat := p.image.width

/-- Toolkit `QPixmap::height()`. -/
def height (p : QPixmap) : Nat := p.image.height

/-- Toolkit `QPixmap::size()`. -/
def size (p : QPixmap) : QSize := ⟨p.image.width, p.image.height⟩

/-- Toolkit `QPixmap::isNull()`: a pixmap without pixels (zero width or zero height). -/
def isNull (p : QPixmap) : Bool := p.image.width == 0 || p.image.height == 0

/-- Toolkit `QPixmap::toImage()`. -/
def toImage (p : QPixmap) : QImage := p.image

/-- Toolkit `QPixmap::fromImage(image)`. -/
def fromImage (img : QImage) : QPixmap := ⟨img⟩

/-- The pixel of a pixmap at `(x, y)`, read through its image. -/
def pixelColor (p : QPixmap) (x y : Nat) : QColor := p.toImage.pixelColor x y

end QPixmap

/-- Toolkit `QPainter`, as far as the engine could use it: the list of pixmaps drawn so far,
each with its target rectangle. -/
structure QPainter where
  drawn : List (QRect × QPixmap)

/-- Toolkit `QPainter::drawPixmap(rect, pixmap)`: draws `pixmap` into `rect`. -/
def QPainter.drawPixmap (painter : QPainter) (rect : QRect) (pixmap : QPixmap) : QPainter :=
  ⟨painter.drawn ++ [(rect, pixmap)]⟩

/-! ## The engine -/

/-- The members of `CustomDisabledIconEngine` (lines 24-25 and 49-64 of the source):
the source pixmap and its disabled variant. -/
structure CustomDisabledIconEngine where
  mPixmap : QPixmap
  mDisabledPixmap : QPixmap

namespace CustomDisabledIconEngine

/-- Lines 8-11: the constructor has an empty body, both members are default-constructed
(null) pixmaps. -/
def new : CustomDisabledIconEngine := ⟨QPixmap.null, QPixmap.null⟩

/-- Lines 13-19: `paint`.  The body holds only commented-out code: nothing is drawn and
no member is assigned.  The result is the painter after the call. -/
def paint (_e : CustomDisabledIconEngine) (painter : QPainter) (_rect : QRect)
    (_mode : Mode) (_state : State) : QPainter :=
  painter

/-- Lines 29-35: `pixmap`. -/
def pixmap (e : CustomDisabledIconEngine) (_size : QSize) (mode : Mode) (_state : State) :
    QPixmap :=
  if mode = Mode.Disabled then e.mDisabledPixmap else e.mPixmap

/-- Lines 57-61: the body of the pixel loop. -/
def loopBody (oldImage : QImage) (x y : Nat) (image : QImage) : QImage :=
  let c := oldImage.pixelColor x y
  let gray := grayOf c.red c.green c.blue
  let c2 := QColor.fromRgba gray gray gray c.alpha
  let c2 := c2.darker
  image.setPixelColor x y c2

/-- Lines 55-63: `for (int x=0;x<image.width();x++) for (int y=0;y<image.height();y++)`
around the loop body; `x` and `y` run through `0, 1, ...` below the width and height
of the image (which `setPixelColor` does not change, see `loopBody_width`). -/
def pixelLoop (oldImage image : QImage) : QImage :=
  (List.range image.width).foldl
    (fun img x => (List.range img.height).foldl (fun img y => loopBody oldImage x y img) img)
    image

/-- Lines 47-67: `setPixmap`. -/
def setPixmap (e : CustomDisabledIconEngine) (pixmap : QPixmap) : CustomDisabledIconEngine :=
  let e := { e with mPixmap := pixmap }
  if pixmap.isNull then
    { e with mDisabledPixmap := pixmap }
  else
    let oldImage := e.mPixmap.toImage
    let image := QImage.create e.mPixmap.size
    let image := pixelLoop oldImage image
    { e with mDisabledPixmap := QPixmap.fromImage image }

/-- Lines 37-40: `addPixmap`. -/
def addPixmap (e : CustomDisabledIconEngine) (pixmap : QPixmap) (_mode : Mode)
    (_state : State) : CustomDisabledIconEngine :=
  e.setPixmap pixmap

/-- Lines 42-45: `addFile`.  `QPixmap(fileName)` loads the file with the toolkit's
decoder, which is the parameter `decode`; it yields a null pixmap when loading fails. -/
def addFile (decode : String → QPixmap) (e : CustomDisabledIconEngine) (fileName : String)
    (_size : QSize) (_mode : Mode) (_state : State) : CustomDisabledIconEngine :=
  e.setPixmap (decode fileName)

/-- Lines 21-27: `clone`, the fields of the engine that `new` allocates. -/
def clone (e : CustomDisabledIconEngine) : CustomDisabledIconEngine :=
  let eng := new
  let eng := { eng with mPixmap := e.mPixmap }
  let eng := { eng with mDisabledPixmap := e.mDisabledPixmap }
  eng

end CustomDisabledIconEngine

/-- The color that the loop body stores at `(x, y)`: lines 57-60 for the pixel of
`oldImage` at `(x, y)`. -/
def loopColor (oldImage : QImage) (x y : Nat) : QColor :=
  let c := oldImage.pixelColor x y
  let gray := grayOf c.red c.green c.blue
  (QColor.fromRgba gray gray gray c.alpha).darker

/-- The grayscale-darken transform `derive` of the spec: the disabled pixmap that
`setPixmap` stores for a source pixmap. -/
def derive (pixmap : QPixmap) : QPixmap :=
  (CustomDisabledIconEngine.new.setPixmap pixmap).mDisabledPixmap

/-! ## Engines as objects -/

/-- The engines allocated so far.  The address of an engine is its position in the
list; `new CustomDisabledIconEngine()` appends an engine and returns the old length. -/
abbrev Heap := List CustomDisabledIconEngine

/-- A call of one of the engine's member functions, with its arguments. -/
inductive Call where
  | setPixmap (pixmap : QPixmap)
  | addPixmap (pixmap : QPixmap) (mode : Mode) (state : State)
  | addFile (fileName : String) (size : QSize) (mode : Mode) (state : State)
  | pixmap (size : QSize) (mode : Mode) (state : State)
  | paint (painter : QPainter) (rect : QRect) (mode : Mode) (state : State)
  | clone

/-- The heap after the call `c` on the engine at address `addr`.  `setPixmap`,
`addPixmap` and `addFile` assign the members of that engine; `pixmap` and `paint`
assign nothing; `clone` allocates one engine, at address `h.length`.  A call through
an address that holds no engine is not modelled (the heap stays as it is). -/
def Heap.call (decode : String → QPixmap) (h : Heap) (addr : Nat) (c : Call) : Heap :=
  match h[addr]? with
  | none => h
  | some e =>
    match c with
    | Call.setPixmap p => h.set addr (e.setPixmap p)
    | Call.addPixmap p mode state => h.set addr (e.addPixmap p mode state)
    | Call.addFile fileName size mode state =>
        h.set addr (e.addFile decode fileName size mode state)
    | Call.pixmap _ _ _ => h
    | Call.paint _ _ _ _ => h
    | Call.clone => h ++ [e.clone]

/-- The result of `pixmap(size, mode, state)` on the engine at address `addr`. -/
def Heap.pixmapAt (h : Heap) (addr : Nat) (size : QSize) (mode : Mode) (state : State) :
    Option QPixmap :=
  (h[addr]?).map (fun e => e.pixmap size mode state)

/-- The heaps that arise from one freshly constructed engine by any sequence of calls,
each on any engine allocated so far (the first one or a clone). -/
inductive Reachable (decode : String → QPixmap) : Heap → Prop where
  | init : Reachable decode [CustomDisabledIconEngine.new]
  | call (h : Heap) (addr : Nat) (c : Call) :
      Reachable decode h → Reachable decode (h.call decode addr c)

/-- The weighted sum of the spec, `round(0.299*R + 0.587*G + 0.114*B)`, computed
exactly: the nearest integer to `(299*R + 587*G + 114*B) / 1000`. -/
def specLuma (r g b : Nat) : Nat := (299 * r + 587 * g + 114 * b + 500) / 1000

/-- A decoder for which every file fails to load. -/
def noFile : String → QPixmap := fun _ => QPixmap.null

/-- A 1 × 1 pixmap with the single pixel `(r, g, b, a)`. -/
def onePixel (r g b a : Fin 256) : QPixmap := ⟨⟨1, 1, fun _ _ => ⟨r, g, b, a⟩⟩⟩

/-- A 2 × 2 pixmap whose four pixels are opaque red `(255, 0, 0, 255)`. -/
def redPixmap : QPixmap := ⟨⟨2, 2, fun _ _ => ⟨255, 0, 0, 255⟩⟩⟩

/-- The heap after `setPixmap(redPixmap)` on a freshly constructed engine. -/
def heapRed : Heap :=
  Heap.call noFile [CustomDisabledIconEngine.new] 0 (Call.setPixmap redPixmap)

/-- The heap after `clone` on that engine, followed by an `addFile` on the original
whose file fails to load. -/
def heapCloned : Heap :=
  Heap.call noFile (Heap.call noFile heapRed 0 Call.clone) 0
    (Call.addFile "x.png" ⟨16, 16⟩ Mode.Normal State.Off)

/-! ## The pixel loop, statement by statement -/

/-- State of the pixel loop with a record of its stores: the image, and the
coordinates at which `setPixelColor` has stored a color, in the order of the stores. -/
structure LoopState where
  image : QImage
  written : List (Nat × Nat)

/-- Lines 57-61 with the record: the loop body, noting `(x, y)` when `setPixelColor`
stores (the coordinate is inside the image and the color is valid). -/
def loopBodyLogged (oldImage : QImage) (x y : Nat) (s : LoopState) : LoopState :=
  let c := oldImage.pixelColor x y
  let gray := grayOf c.red c.green c.blue
  let c2 := QColor.fromRgba gray gray gray c.alpha
  let c2 := c2.darker
  ⟨s.image.setPixelColor x y c2,
    if x < s.image.width ∧ y < s.image.height ∧ c2.isValid then s.written ++ [(x, y)]
    else s.written⟩

/-- Line 56, `for (int y=0;y<image.height();y++)`, run from the counter value `y`: the
condition is tested on the current image before each iteration.  `fuel` bounds the
number of tests; the result is `none` when it is used up before the loop ends. -/
def forY (oldImage : QImage) (x : Nat) : Nat → Nat → LoopState → Option LoopState
  | 0, _, _ => none
  | fuel + 1, y, s =>
    if y < s.image.height then forY oldImage x fuel (y + 1) (loopBodyLogged oldImage x y s)
    else some s

/-- Line 55, `for (int x=0;x<image.width();x++)`, run from the counter value `x`, around
the inner loop started at `y = 0`.  `fuel` bounds the number of tests of each loop. -/
def forX (oldImage : QImage) (fuelY : Nat) : Nat → Nat → LoopState → Option LoopState
  | 0, _, _ => none
  | fuel + 1, x, s =>
    if x < s.image.width then
      match forY oldImage x fuelY 0 s with
      | none => none
      | some s1 => forX oldImage fuelY fuel (x + 1) s1
    else some s

/-- The coordinates of a `w × h` image in the order of the loops: column by column,
each column from row 0 downwards. -/
def loopCoords (w h : Nat) : List (Nat × Nat) :=
  (List.range w).flatMap (fun x => (List.range h).map (fun y => (x, y)))

/-! ## Bounds on the double arithmetic -/

/-- The three literals are the doubles nearest to `0.299`, `0.587` and `0.114`: each is
a 53-bit significand times its unit in the last place (`2^2`, `2^3`, `2^0` units of
`2^-56`) and lies within half of that unit of the decimal value. -/
theorem literals_nearest :
    (lit0299 % 4 = 0 ∧ 2 ^ 52 ≤ lit0299 / 4 ∧ lit0299 / 4 < 2 ^ 53 ∧
      1000 * lit0299 ≤ 299 * 2 ^ 56 + 1000 * 2 ∧ 299 * 2 ^ 56 ≤ 1000 * lit0299 + 1000 * 2) ∧
    (lit0587 % 8 = 0 ∧ 2 ^ 52 ≤ lit0587 / 8 ∧ lit0587 / 8 < 2 ^ 53 ∧
      1000 * lit0587 ≤ 587 * 2 ^ 56 + 1000 * 4 ∧ 587 * 2 ^ 56 ≤ 1000 * lit0587 + 1000 * 4) ∧
    (2 ^ 52 ≤ lit0114 ∧ lit0114 < 2 ^ 53 ∧
      2 * 1000 * lit0114 ≤ 2 * 114 * 2 ^ 56 + 1000 ∧
      2 * 114 * 2 ^ 56 ≤ 2 * 1000 * lit0114 + 1000) := by
  decide

theorem excessBits_le (fuel : Nat) : ∀ (k n : Nat), n < 2 ^ (53 + k) → excessBits fuel n ≤ k := by
  induction fuel with
  | zero => intro k n _; simp [excessBits]
  | succ fuel ih =>
    intro k n hn
    unfold excessBits
    split
    · exact Nat.zero_le _
    · rename_i h53
      cases k with
      | zero => exact absurd hn h53
      | succ k =>
        have h2 : n / 2 < 2 ^ (53 + k) := by
          have hp : 2 ^ (53 + (k + 1)) = 2 * 2 ^ (53 + k) := by
            rw [← Nat.add_assoc, Nat.pow_succ, Nat.mul_comm]
          omega
        have := ih k (n / 2) h2
        omega

theorem excessBits_le_eleven (n : Nat) (hn : n < 2 ^ 64) : excessBits 64 n ≤ 11 :=
  excessBits_le 64 11 n (by simpa using hn)

/-- Rounding moves a value below `2^64` (units of `2^-56`) by less than `2^11` units. -/
theorem roundDouble_near (n : Nat) (hn : n < 2 ^ 64) :
    roundDouble n ≤ n + 2048 ∧ n ≤ roundDouble n + 2048 := by
  have hsh := excessBits_le_eleven n hn
  have hP : 2 ^ excessBits 64 n ≤ 2048 := by
    calc 2 ^ excessBits 64 n ≤ 2 ^ 11 := Nat.pow_le_pow_right (by decide) hsh
      _ = 2048 := by norm_num
  have hpos : 0 < 2 ^ excessBits 64 n := Nat.pow_pos (by decide)
  have hdm := Nat.div_add_mod n (2 ^ excessBits 64 n)
  have hr := Nat.mod_lt n hpos
  have hq : n / 2 ^ excessBits 64 n * 2 ^ excessBits 64 n
      = 2 ^ excessBits 64 n * (n / 2 ^ excessBits 64 n) := Nat.mul_comm _ _
  have hq1 : (n / 2 ^ excessBits 64 n + 1) * 2 ^ excessBits 64 n
      = 2 ^ excessBits 64 n * (n / 2 ^ excessBits 64 n) + 2 ^ excessBits 64 n := by
    rw [Nat.add_mul, Nat.one_mul, Nat.mul_comm]
  unfold roundDouble
  simp only []
  split
  · omega
  · split
    · omega
    · omega

theorem grayOf_le (r g b : Nat) (hr : r ≤ 255) (hg : g ≤ 255) (hb : b ≤ 255) :
    grayOf r g b ≤ 255 := by
  have h1 := roundDouble_near (lit0299 * r) (by unfold lit0299; omega)
  have h2 := roundDouble_near (lit0587 * g) (by unfold lit0587; omega)
  have h3 := roundDouble_near (lit0114 * b) (by unfold lit0114; omega)
  unfold lit0299 at h1
  unfold lit0587 at h2
  unfold lit0114 at h3
  have h4 := roundDouble_near
    (roundDouble (21545220617340452 * r) + roundDouble (42297807700263696 * g)) (by omega)
  have h5 := roundDouble_near
    (roundDouble (roundDouble (21545220617340452 * r) + roundDouble (42297807700263696 * g))
      + roundDouble (8214565720323785 * b)) (by omega)
  unfold grayOf doubleToInt doubleAdd doubleMulInt doubleScale lit0299 lit0587 lit0114
  omega

/-! ## Colors and pixels -/

theorem pixelColor_channels (img : QImage) (x y : Nat) :
    (img.pixelColor x y).red ≤ 255 ∧ (img.pixelColor x y).green ≤ 255 ∧
      (img.pixelColor x y).blue ≤ 255 ∧ (img.pixelColor x y).alpha ≤ 255 := by
  unfold QImage.pixelColor
  split
  · have h1 := (img.data x y).red.isLt
    have h2 := (img.data x y).green.isLt
    have h3 := (img.data x y).blue.isLt
    have h4 := (img.data x y).alpha.isLt
    simp only [QColor.fromRgb]
    omega
  · simp [QColor.invalid]

theorem fromRgba_of_le (r g b a : Nat) (hr : r ≤ 255) (hg : g ≤ 255) (hb : b ≤ 255)
    (ha : a ≤ 255) : QColor.fromRgba r g b a = ⟨true, r, g, b, a⟩ := by
  simp [QColor.fromRgba, hr, hg, hb, ha]

/-- The color stored by the loop body, in closed form: the gray value is in range, so
the intermediate color is valid and `darker` halves it. -/
theorem loopColor_eq (oldImage : QImage) (x y : Nat) :
    loopColor oldImage x y =
      ⟨true,
        grayOf (oldImage.pixelColor x y).red (oldImage.pixelColor x y).green
          (oldImage.pixelColor x y).blue * 100 / 200,
        grayOf (oldImage.pixelColor x y).red (oldImage.pixelColor x y).green
          (oldImage.pixelColor x y).blue * 100 / 200,
        grayOf (oldImage.pixelColor x y).red (oldImage.pixelColor x y).green
          (oldImage.pixelColor x y).blue * 100 / 200,
        (oldImage.pixelColor x y).alpha⟩ := by
  obtain ⟨hr, hg, hb, ha⟩ := pixelColor_channels oldImage x y
  have hL := grayOf_le _ _ _ hr hg hb
  simp only [loopColor]
  rw [fromRgba_of_le _ _ _ _ hL hL hL ha]
  simp [QColor.darker, QColor.darkerFactor]

theorem loopColor_valid (oldImage : QImage) (x y : Nat) :
    (loopColor oldImage x y).isValid = true := by
  rw [loopColor_eq]; rfl

theorem fromRgb_rgba (c : QColor) (hv : c.valid = true) (hr : c.red ≤ 255)
    (hg : c.green ≤ 255) (hb : c.blue ≤ 255) (ha : c.alpha ≤ 255) :
    QColor.fromRgb c.rgba = c := by
  cases c with
  | mk v r g b a =>
    simp only at hv hr hg hb ha
    subst hv
    simp only [QColor.fromRgb, QColor.rgba, Fin.ofNat, QColor.mk.injEq, true_and]
    refine ⟨?_, ?_, ?_, ?_⟩ <;> omega

theorem fromRgb_rgba_loopColor (oldImage : QImage) (x y : Nat) :
    QColor.fromRgb (loopColor oldImage x y).rgba = loopColor oldImage x y := by
  obtain ⟨hr, hg, hb, ha⟩ := pixelColor_channels oldImage x y
  have hL := grayOf_le _ _ _ hr hg hb
  apply fromRgb_rgba
  · exact loopColor_valid oldImage x y
  all_goals (rw [loopColor_eq]; simp only; omega)

/-! ## The pixel loop -/

theorem loopBody_eq (oldImage : QImage) (x y : Nat) (image : QImage) :
    CustomDisabledIconEngine.loopBody oldImage x y image
      = image.setPixelColor x y (loopColor oldImage x y) := rfl

theorem loopBody_width (oldImage : QImage) (x y : Nat) (image : QImage) :
    (CustomDisabledIconEngine.loopBody oldImage x y image).width = image.width := by
  rw [loopBody_eq]; unfold QImage.setPixelColor; split <;> rfl

theorem loopBody_height (oldImage : QImage) (x y : Nat) (image : QImage) :
    (CustomDisabledIconEngine.loopBody oldImage x y image).height = image.height := by
  rw [loopBody_eq]; unfold QImage.setPixelColor; split <;> rfl

theorem loopBody_data (oldImage : QImage) (x y : Nat) (image : QImage) (i j : Nat) :
    (CustomDisabledIconEngine.loopBody oldImage x y image).data i j =
      if i = x ∧ j = y ∧ x < image.width ∧ y < image.height
      then (loopColor oldImage x y).rgba else image.data i j := by
  rw [loopBody_eq]
  unfold QImage.setPixelColor
  have hv := loopColor_valid oldImage x y
  by_cases hx : x < image.width <;> by_cases hy : y < image.height <;>
    simp [hx, hy, hv]

/-- The inner loop over a list of rows `ys` in column `x`. -/
theorem innerLoop_spec (oldImage : QImage) (x : Nat) (ys : List Nat) :
    ∀ image : QImage,
      (ys.foldl (fun img y => CustomDisabledIconEngine.loopBody oldImage x y img) image).width
          = image.width ∧
      (ys.foldl (fun img y => CustomDisabledIconEngine.loopBody oldImage x y img) image).height
          = image.height ∧
      ∀ i j, (ys.foldl (fun img y => CustomDisabledIconEngine.loopBody oldImage x y img)
          image).data i j =
        if i = x ∧ j ∈ ys ∧ x < image.width ∧ j < image.height
        then (loopColor oldImage x j).rgba else image.data i j := by
  induction ys with
  | nil => intro image; simp
  | cons y ys ih =>
    intro image
    obtain ⟨hw, hh, hd⟩ := ih (CustomDisabledIconEngine.loopBody oldImage x y image)
    rw [loopBody_width] at hw
    rw [loopBody_height] at hh
    refine ⟨by simpa using hw, by simpa using hh, ?_⟩
    intro i j
    simp only [List.foldl_cons]
    rw [hd i j, loopBody_width, loopBody_height, loopBody_data]
    by_cases hi : i = x <;> by_cases hj : j = y <;> by_cases hm : j ∈ ys <;>
      by_cases hx : x < image.width <;> by_cases hy : j < image.height <;>
      simp [hi, hj, hm, hx, hy] <;> simp_all

/-- The nested loops over a list of columns `xs`, each with the rows below the height. -/
theorem outerLoop_spec (oldImage : QImage) (xs : List Nat) :
    ∀ image : QImage,
      (xs.foldl (fun img x => (List.range img.height).foldl
          (fun img y => CustomDisabledIconEngine.loopBody oldImage x y img) img) image).width
          = image.width ∧
      (xs.foldl (fun img x => (List.range img.height).foldl
          (fun img y => CustomDisabledIconEngine.loopBody oldImage x y img) img) image).height
          = image.height ∧
      ∀ i j, (xs.foldl (fun img x => (List.range img.height).foldl
          (fun img y => CustomDisabledIconEngine.loopBody oldImage x y img) img) image).data i j =
        if i ∈ xs ∧ i < image.width ∧ j < image.height
        then (loopColor oldImage i j).rgba else image.data i j := by
  induction xs with
  | nil => intro image; simp
  | cons x xs ih =>
    intro image
    obtain ⟨hw1, hh1, hd1⟩ := innerLoop_spec oldImage x (List.range image.height) image
    obtain ⟨hw, hh, hd⟩ := ih ((List.range image.height).foldl
      (fun img y => CustomDisabledIconEngine.loopBody oldImage x y img) image)
    rw [hw1] at hw
    rw [hh1] at hh
    refine ⟨by simpa using hw, by simpa using hh, ?_⟩
    intro i j
    simp only [List.foldl_cons]
    rw [hd i j, hw1, hh1, hd1 i j]
    by_cases hi : i = x <;> by_cases hm : i ∈ xs <;>
      by_cases hx : i < image.width <;> by_cases hy : j < image.height <;>
      simp [hi, hm, hx, hy, List.mem_range] <;> simp_all

theorem pixelLoop_width (oldImage image : QImage) :
    (CustomDisabledIconEngine.pixelLoop oldImage image).width = image.width :=
  (outerLoop_spec oldImage (List.range image.width) image).1

theorem pixelLoop_height (oldImage image : QImage) :
    (CustomDisabledIconEngine.pixelLoop oldImage image).height = image.height :=
  (outerLoop_spec oldImage (List.range image.width) image).2.1

/-- After the loop every pixel inside the image holds the color computed from the pixel
of `oldImage` at the same place, whatever `image` held before. -/
theorem pixelLoop_data (oldImage image : QImage) (i j : Nat) (hi : i < image.width)
    (hj : j < image.height) :
    (CustomDisabledIconEngine.pixelLoop oldImage image).data i j
      = (loopColor oldImage i j).rgba := by
  have h := (outerLoop_spec oldImage (List.range image.width) image).2.2 i j
  unfold CustomDisabledIconEngine.pixelLoop
  rw [h]
  simp [List.mem_range, hi, hj]

theorem pixelLoop_pixelColor (oldImage image : QImage) (i j : Nat) (hi : i < image.width)
    (hj : j < image.height) :
    (CustomDisabledIconEngine.pixelLoop oldImage image).pixelColor i j
      = loopColor oldImage i j := by
  unfold QImage.pixelColor
  rw [pixelLoop_width, pixelLoop_height, pixelLoop_data oldImage image i j hi hj]
  simp [hi, hj, fromRgb_rgba_loopColor]

/-- The contents of the freshly constructed image do not matter: two images of the same
size end with the same pixels. -/
theorem pixelLoop_initial_irrelevant (oldImage image1 image2 : QImage)
    (hw : image1.width = image2.width) (hh : image1.height = image2.height) (i j : Nat) :
    (CustomDisabledIconEngine.pixelLoop oldImage image1).pixelColor i j
      = (CustomDisabledIconEngine.pixelLoop oldImage image2).pixelColor i j := by
  by_cases hi : i < image1.width
  · by_cases hj : j < image1.height
    · rw [pixelLoop_pixelColor oldImage image1 i j hi hj,
        pixelLoop_pixelColor oldImage image2 i j (hw ▸ hi) (hh ▸ hj)]
    · unfold QImage.pixelColor
      rw [pixelLoop_width, pixelLoop_height, pixelLoop_width, pixelLoop_height]
      have hj2 : ¬ j < image2.height := hh ▸ hj
      simp [hj, hj2]
  · unfold QImage.pixelColor
    rw [pixelLoop_width, pixelLoop_height, pixelLoop_width, pixelLoop_height]
    have hi2 : ¬ i < image2.width := hw ▸ hi
    simp [hi, hi2]

/-! ## setPixmap and derive -/

theorem derive_eq (p : QPixmap) :
    derive p = if p.isNull then p
      else QPixmap.fromImage (CustomDisabledIconEngine.pixelLoop p.toImage (QImage.create p.size)) := by
  unfold derive CustomDisabledIconEngine.setPixmap
  simp only []
  split <;> rfl

theorem setPixmap_eq (e : CustomDisabledIconEngine) (p : QPixmap) :
    e.setPixmap p = ⟨p, derive p⟩ := by
  rw [derive_eq]
  unfold CustomDisabledIconEngine.setPixmap
  simp only []
  split <;> rfl

theorem derive_null (p : QPixmap) (hp : p.isNull = true) : derive p = p := by
  rw [derive_eq]; simp [hp]

theorem derive_width (p : QPixmap) : (derive p).width = p.width := by
  rw [derive_eq]
  split
  · rfl
  · simp only [QPixmap.width, QPixmap.fromImage]
    rw [pixelLoop_width]; rfl

theorem derive_height (p : QPixmap) : (derive p).height = p.height := by
  rw [derive_eq]
  split
  · rfl
  · simp only [QPixmap.height, QPixmap.fromImage]
    rw [pixelLoop_height]; rfl

theorem derive_pixelColor (p : QPixmap) (hp : p.isNull = false) (x y : Nat)
    (hx : x < p.width) (hy : y < p.height) :
    (derive p).pixelColor x y = loopColor p.toImage x y := by
  rw [derive_eq]
  simp only [hp, Bool.false_eq_true, if_false, QPixmap.pixelColor, QPixmap.toImage,
    QPixmap.fromImage]
  exact pixelLoop_pixelColor p.image (QImage.create p.size) x y hx hy

/-! ## Reachable heaps -/

theorem new_derived :
    CustomDisabledIconEngine.new.mDisabledPixmap = derive CustomDisabledIconEngine.new.mPixmap := by
  rw [derive_null _ (by decide)]; rfl

theorem clone_fields (e : CustomDisabledIconEngine) :
    e.clone.mPixmap = e.mPixmap ∧ e.clone.mDisabledPixmap = e.mDisabledPixmap :=
  ⟨rfl, rfl⟩

/-- Every call keeps "the disabled pixmap is `derive` of the source pixmap" on every
engine of the heap. -/
theorem call_derived (decode : String → QPixmap) (h : Heap) (addr : Nat) (c : Call)
    (ih : ∀ e ∈ h, e.mDisabledPixmap = derive e.mPixmap) :
    ∀ e ∈ h.call decode addr c, e.mDisabledPixmap = derive e.mPixmap := by
  intro e he
  unfold Heap.call at he
  cases hget : h[addr]? with
  | none => rw [hget] at he; exact ih e he
  | some e0 =>
    rw [hget] at he
    have hset : ∀ p : QPixmap, e ∈ h.set addr (e0.setPixmap p) →
        e.mDisabledPixmap = derive e.mPixmap := by
      intro p hm
      rcases List.mem_or_eq_of_mem_set hm with hm | hm
      · exact ih e hm
      · rw [hm, setPixmap_eq]
    cases c with
    | setPixmap p => exact hset p he
    | addPixmap p mode state => exact hset p he
    | addFile fileName size mode state => exact hset (decode fileName) he
    | pixmap size mode state => exact ih e he
    | paint painter rect mode state => exact ih e he
    | clone =>
      simp only [List.mem_append, List.mem_singleton] at he
      rcases he with hm | hm
      · exact ih e hm
      · rw [hm, (clone_fields e0).1, (clone_fields e0).2]
        exact ih e0 (List.getElem?_mem hget)

theorem reachable_derived (decode : String → QPixmap) (h : Heap) (hr : Reachable decode h) :
    ∀ e ∈ h, e.mDisabledPixmap = derive e.mPixmap := by
  induction hr with
  | init =>
    intro e he
    simp only [List.mem_singleton] at he
    rw [he]; exact new_derived
  | call h addr c _ ih => exact call_derived decode h addr c ih

/-! ## Properties of the engine -/

/-- C1: for a non-null source pixmap `p` and a pixel `(x, y)` of it with channels
`(R, G, B, A)`, the disabled pixmap stored by `setPixmap` has at `(x, y)` the pixel
`(L*100/200, L*100/200, L*100/200, A)`, where `L` is the gray value that line 58
computes from `(R, G, B)`. -/
theorem setPixmap_disabled_pixel (e : CustomDisabledIconEngine) (p : QPixmap)
    (hp : p.isNull = false) (x y : Nat) (hx : x < p.width) (hy : y < p.height)
    (R G B A : Nat) (hc : p.pixelColor x y = ⟨true, R, G, B, A⟩) :
    (e.setPixmap p).mDisabledPixmap.pixelColor x y =
      ⟨true, grayOf R G B * 100 / 200, grayOf R G B * 100 / 200,
        grayOf R G B * 100 / 200, A⟩ := by
  rw [setPixmap_eq]
  simp only []
  rw [derive_pixelColor p hp x y hx hy, loopColor_eq]
  have hc2 : p.toImage.pixelColor x y = ⟨true, R, G, B, A⟩ := hc
  rw [hc2]

/-- C1, the scenario of the spec: the 2 × 2 all-red opaque image gives `L = 76` and a
disabled image whose four pixels are `(38, 38, 38, 255)`. -/
theorem setPixmap_disabled_pixel_red :
    redPixmap.isNull = false ∧ grayOf 255 0 0 = 76 ∧
    (CustomDisabledIconEngine.new.setPixmap redPixmap).mDisabledPixmap.pixelColor 0 0
      = ⟨true, 38, 38, 38, 255⟩ ∧
    (CustomDisabledIconEngine.new.setPixmap redPixmap).mDisabledPixmap.pixelColor 0 1
      = ⟨true, 38, 38, 38, 255⟩ ∧
    (CustomDisabledIconEngine.new.setPixmap redPixmap).mDisabledPixmap.pixelColor 1 0
      = ⟨true, 38, 38, 38, 255⟩ ∧
    (CustomDisabledIconEngine.new.setPixmap redPixmap).mDisabledPixmap.pixelColor 1 1
      = ⟨true, 38, 38, 38, 255⟩ :=
  ⟨by decide, by decide,
    setPixmap_disabled_pixel CustomDisabledIconEngine.new redPixmap (by decide) 0 0
      (by decide) (by decide) 255 0 0 255 (by decide),
    setPixmap_disabled_pixel CustomDisabledIconEngine.new redPixmap (by decide) 0 1
      (by decide) (by decide) 255 0 0 255 (by decide),
    setPixmap_disabled_pixel CustomDisabledIconEngine.new redPixmap (by decide) 1 0
      (by decide) (by decide) 255 0 0 255 (by decide),
    setPixmap_disabled_pixel CustomDisabledIconEngine.new redPixmap (by decide) 1 1
      (by decide) (by decide) 255 0 0 255 (by decide)⟩

/-- C2 as stated fails: for the pixel `(6, 0, 0)` the weighted sum is `1.794`, which
rounds to 2, and line 58 yields 1, so the disabled pixel is `(0, 0, 0, A)` and not
`(1, 1, 1, A)`; for the gray pixel `(1, 1, 1)` the sum is exactly 1 and line 58
yields 0. -/
theorem grayOf_ne_specLuma :
    grayOf 6 0 0 = 1 ∧ specLuma 6 0 0 = 2 ∧
    (derive (onePixel 6 0 0 255)).pixelColor 0 0 = ⟨true, 0, 0, 0, 255⟩ ∧
    specLuma 6 0 0 * 100 / 200 = 1 ∧
    grayOf 1 1 1 = 0 ∧ specLuma 1 1 1 = 1 ∧
    ¬ (∀ r g b : Nat, r ≤ 255 → g ≤ 255 → b ≤ 255 → grayOf r g b = specLuma r g b) := by
  refine ⟨by decide, by decide, by decide, by decide, by decide, by decide, ?_⟩
  intro h
  exact absurd (h 6 0 0 (by decide) (by decide) (by decide)) (by decide)

/-- C2, amended: for channels in 0..255 the gray value of line 58 is the weighted sum
`(299*R + 587*G + 114*B) / 1000` truncated, not rounded: it is the integer part of
the exact sum whenever that sum is not a whole number, and otherwise it is the sum
or one less (the double arithmetic may end just below the whole number). -/
theorem grayOf_truncates (r g b : Nat) (hr : r ≤ 255) (hg : g ≤ 255) (hb : b ≤ 255) :
    ((299 * r + 587 * g + 114 * b) % 1000 ≠ 0 →
      grayOf r g b = (299 * r + 587 * g + 114 * b) / 1000) ∧
    grayOf r g b ≤ (299 * r + 587 * g + 114 * b) / 1000 ∧
    (299 * r + 587 * g + 114 * b) / 1000 ≤ grayOf r g b + 1 := by
  have h1 := roundDouble_near (lit0299 * r) (by unfold lit0299; omega)
  have h2 := roundDouble_near (lit0587 * g) (by unfold lit0587; omega)
  have h3 := roundDouble_near (lit0114 * b) (by unfold lit0114; omega)
  unfold lit0299 at h1
  unfold lit0587 at h2
  unfold lit0114 at h3
  have h4 := roundDouble_near
    (roundDouble (21545220617340452 * r) + roundDouble (42297807700263696 * g)) (by omega)
  have h5 := roundDouble_near
    (roundDouble (roundDouble (21545220617340452 * r) + roundDouble (42297807700263696 * g))
      + roundDouble (8214565720323785 * b)) (by omega)
  unfold grayOf doubleToInt doubleAdd doubleMulInt doubleScale lit0299 lit0587 lit0114
  refine ⟨fun hm => ?_, ?_, ?_⟩ <;> omega

/-- C2, amended, at the pixel `(6, 0, 0)`: the sum `1.794` is truncated to 1. -/
theorem grayOf_truncates_six :
    6 ≤ 255 ∧ 0 ≤ 255 ∧ (299 * 6 + 587 * 0 + 114 * 0) % 1000 ≠ 0 ∧
    grayOf 6 0 0 = (299 * 6 + 587 * 0 + 114 * 0) / 1000 :=
  ⟨by decide, by decide, by decide,
    (grayOf_truncates 6 0 0 (by decide) (by decide) (by decide)).1 (by decide)⟩

/-- C3: for a non-null source pixmap and a pixel `(x, y)` of it, the alpha channel of
the disabled pixmap at `(x, y)` is the alpha channel of the source pixmap at
`(x, y)`. -/
theorem setPixmap_alpha (e : CustomDisabledIconEngine) (p : QPixmap) (hp : p.isNull = false)
    (x y : Nat) (hx : x < p.width) (hy : y < p.height) :
    ((e.setPixmap p).mDisabledPixmap.pixelColor x y).alpha = (p.pixelColor x y).alpha := by
  rw [setPixmap_eq]
  simp only []
  rw [derive_pixelColor p hp x y hx hy, loopColor_eq]
  rfl

/-- C3 on a half-transparent pixel `(10, 200, 30, 128)`: the alpha 128 is kept. -/
theorem setPixmap_alpha_halfTransparent :
    (onePixel 10 200 30 128).isNull = false ∧
    0 < (onePixel 10 200 30 128).width ∧ 0 < (onePixel 10 200 30 128).height ∧
    ((onePixel 10 200 30 128).pixelColor 0 0).alpha = 128 ∧
    ((CustomDisabledIconEngine.new.setPixmap (onePixel 10 200 30 128)).mDisabledPixmap.pixelColor
      0 0).alpha = ((onePixel 10 200 30 128).pixelColor 0 0).alpha :=
  ⟨by decide, by decide, by decide, by decide,
    setPixmap_alpha CustomDisabledIconEngine.new (onePixel 10 200 30 128) (by decide) 0 0
      (by decide) (by decide)⟩

/-- C4: on every engine of a reachable heap, `pixmap(size, mode, state)` returns
`derive` of the source pixmap when the mode is `Disabled` and the source pixmap itself
for every other mode; the result depends neither on the size nor on the state. -/
theorem pixmap_selects (decode : String → QPixmap) (h : Heap) (hr : Reachable decode h)
    (e : CustomDisabledIconEngine) (he : e ∈ h) (size : QSize) (mode : Mode) (state : State) :
    e.pixmap size mode state = (if mode = Mode.Disabled then derive e.mPixmap else e.mPixmap) ∧
    ∀ (size2 : QSize) (state2 : State), e.pixmap size2 mode state2 = e.pixmap size mode state := by
  refine ⟨?_, fun _ _ => rfl⟩
  unfold CustomDisabledIconEngine.pixmap
  rw [reachable_derived decode h hr e he]

/-- C4 on the engine that holds the red pixmap, asked for the `Disabled` mode. -/
theorem pixmap_selects_red :
    Reachable noFile heapRed ∧
    CustomDisabledIconEngine.new.setPixmap redPixmap ∈ heapRed ∧
    (CustomDisabledIconEngine.new.setPixmap redPixmap).pixmap ⟨16, 16⟩ Mode.Disabled State.On
      = derive (CustomDisabledIconEngine.new.setPixmap redPixmap).mPixmap :=
  ⟨Reachable.call _ 0 _ Reachable.init, List.mem_singleton.mpr rfl,
    (pixmap_selects noFile heapRed (Reachable.call _ 0 _ Reachable.init)
      (CustomDisabledIconEngine.new.setPixmap redPixmap) (List.mem_singleton.mpr rfl)
      ⟨16, 16⟩ Mode.Disabled State.On).1⟩

/-- C5: in every heap reachable from a freshly constructed engine by `setPixmap`,
`addPixmap`, `addFile`, `pixmap`, `paint` and `clone` calls, every engine (the first
one and every clone) stores as disabled pixmap `derive` of its source pixmap; and
`derive` of a null pixmap is that null pixmap. -/
theorem disabled_is_derived (decode : String → QPixmap) (h : Heap) (hr : Reachable decode h)
    (e : CustomDisabledIconEngine) (he : e ∈ h) :
    e.mDisabledPixmap = derive e.mPixmap ∧
    (e.mPixmap.isNull = true → e.mDisabledPixmap = e.mPixmap) ∧
    ∀ p : QPixmap, p.isNull = true → derive p = p := by
  have hd := reachable_derived decode h hr e he
  refine ⟨hd, fun hn => ?_, fun p hp => derive_null p hp⟩
  rw [hd, derive_null _ hn]

/-- C5 on the clone made after `setPixmap(redPixmap)`, with a failed `addFile` on the
original afterwards. -/
theorem disabled_is_derived_clone :
    Reachable noFile heapCloned ∧
    (CustomDisabledIconEngine.new.setPixmap redPixmap).clone ∈ heapCloned ∧
    (CustomDisabledIconEngine.new.setPixmap redPixmap).clone.mDisabledPixmap
      = derive (CustomDisabledIconEngine.new.setPixmap redPixmap).clone.mPixmap :=
  ⟨Reachable.call _ 0 _ (Reachable.call _ 0 _ (Reachable.call _ 0 _ Reachable.init)),
    List.mem_cons_of_mem _ (List.mem_singleton.mpr rfl),
    (disabled_is_derived noFile heapCloned
      (Reachable.call _ 0 _ (Reachable.call _ 0 _ (Reachable.call _ 0 _ Reachable.init)))
      (CustomDisabledIconEngine.new.setPixmap redPixmap).clone
      (List.mem_cons_of_mem _ (List.mem_singleton.mpr rfl))).1⟩

/-- C6: `setPixmap` with a null pixmap leaves the source pixmap and the disabled pixmap
null (both are the argument), and afterwards `pixmap(size, mode, state)` returns a null
pixmap for every size, mode and state. -/
theorem setPixmap_null (e : CustomDisabledIconEngine) (p : QPixmap) (hp : p.isNull = true) :
    (e.setPixmap p).mPixmap = p ∧ (e.setPixmap p).mDisabledPixmap = p ∧
    (e.setPixmap p).mPixmap.isNull = true ∧ (e.setPixmap p).mDisabledPixmap.isNull = true ∧
    ∀ (size : QSize) (mode : Mode) (state : State),
      ((e.setPixmap p).pixmap size mode state).isNull = true := by
  have h1 : (e.setPixmap p).mPixmap = p := by rw [setPixmap_eq]
  have h2 : (e.setPixmap p).mDisabledPixmap = p := by rw [setPixmap_eq]; exact derive_null p hp
  refine ⟨h1, h2, by rw [h1]; exact hp, by rw [h2]; exact hp, ?_⟩
  intro size mode state
  unfold CustomDisabledIconEngine.pixmap
  split
  · rw [h2]; exact hp
  · rw [h1]; exact hp

/-- C6 on an engine that held the red pixmap: after `setPixmap(QPixmap())` the query
for the `Disabled` mode returns a null pixmap. -/
theorem setPixmap_null_after_red :
    QPixmap.null.isNull = true ∧
    (((CustomDisabledIconEngine.new.setPixmap redPixmap).setPixmap QPixmap.null).pixmap
      ⟨16, 16⟩ Mode.Disabled State.On).isNull = true :=
  ⟨by decide,
    (setPixmap_null (CustomDisabledIconEngine.new.setPixmap redPixmap) QPixmap.null
      (by decide)).2.2.2.2 ⟨16, 16⟩ Mode.Disabled State.On⟩

/-- C7: for every source pixmap of width `w` and height `h`, the disabled pixmap stored
by `setPixmap` has width `w` and height `h`. -/
theorem setPixmap_disabled_size (e : CustomDisabledIconEngine) (p : QPixmap) :
    (e.setPixmap p).mDisabledPixmap.width = p.width ∧
    (e.setPixmap p).mDisabledPixmap.height = p.height := by
  rw [setPixmap_eq]
  exact ⟨derive_width p, derive_height p⟩

/-- C8: `clone` on the engine at address `a` allocates an engine (at the address
`h.length`) with the same source pixmap and the same disabled pixmap, so it answers
every `pixmap` query as the original does; every later call on the clone (`setPixmap`,
`addPixmap`, `addFile` or any other) leaves every `pixmap` result of the original
unchanged, and every later call on the original leaves those of the clone unchanged. -/
theorem clone_independent (decode : String → QPixmap) (h : Heap) (a : Nat)
    (e : CustomDisabledIconEngine) (ha : h[a]? = some e) :
    (h.call decode a Call.clone)[h.length]? = some e.clone ∧
    e.clone.mPixmap = e.mPixmap ∧ e.clone.mDisabledPixmap = e.mDisabledPixmap ∧
    (∀ (size : QSize) (mode : Mode) (state : State),
      (h.call decode a Call.clone).pixmapAt h.length size mode state
        = some (e.pixmap size mode state) ∧
      (h.call decode a Call.clone).pixmapAt a size mode state
        = some (e.pixmap size mode state)) ∧
    (∀ (c : Call) (size : QSize) (mode : Mode) (state : State),
      ((h.call decode a Call.clone).call decode h.length c).pixmapAt a size mode state
        = some (e.pixmap size mode state)) ∧
    (∀ (c : Call) (size : QSize) (mode : Mode) (state : State),
      ((h.call decode a Call.clone).call decode a c).pixmapAt h.length size mode state
        = some (e.pixmap size mode state)) := by
  obtain ⟨hlt, _⟩ := List.getElem?_eq_some.mp ha
  have hne : h.length ≠ a := Nat.ne_of_gt hlt
  have hclone : h.call decode a Call.clone = h ++ [e.clone] := by
    unfold Heap.call; rw [ha]
  have hb : (h ++ [e.clone])[h.length]? = some e.clone := List.getElem?_concat_length h e.clone
  have hlt2 : a < (h ++ [e.clone]).length := by simp; omega
  have hlt3 : h.length < (h ++ [e.clone]).length := by simp
  have ha2 : (h ++ [e.clone])[a]? = some e := by
    rw [List.getElem?_append_left hlt]; exact ha
  have hq : ∀ (size : QSize) (mode : Mode) (state : State),
      e.clone.pixmap size mode state = e.pixmap size mode state := fun _ _ _ => rfl
  rw [hclone]
  refine ⟨hb, rfl, rfl, ?_, ?_, ?_⟩
  · intro size mode state
    simp only [Heap.pixmapAt, hb, ha2, Option.map_some', hq]
    exact ⟨trivial, trivial⟩
  · intro c size mode state
    unfold Heap.call
    rw [hb]
    cases c <;>
      simp only [Heap.pixmapAt, List.getElem?_set_ne hne, ha2, Option.map_some',
        List.getElem?_append_left hlt2]
  · intro c size mode state
    unfold Heap.call
    rw [ha2]
    cases c <;>
      simp only [Heap.pixmapAt, List.getElem?_set_ne hne.symm, hb, Option.map_some',
        List.getElem?_append_left hlt3, hq]

/-- C8 on the engine that holds the red pixmap: after `clone`, a `setPixmap` with a
null pixmap on the clone (address 1) leaves the `Disabled` query of the original
(address 0) as it was. -/
theorem clone_independent_red :
    heapRed[0]? = some (CustomDisabledIconEngine.new.setPixmap redPixmap) ∧
    ((heapRed.call noFile 0 Call.clone).call noFile heapRed.length
        (Call.setPixmap QPixmap.null)).pixmapAt 0 ⟨16, 16⟩ Mode.Disabled State.On
      = some ((CustomDisabledIconEngine.new.setPixmap redPixmap).pixmap ⟨16, 16⟩
          Mode.Disabled State.On) :=
  ⟨rfl,
    (clone_independent noFile heapRed 0 (CustomDisabledIconEngine.new.setPixmap redPixmap)
      rfl).2.2.2.2.1 (Call.setPixmap QPixmap.null) ⟨16, 16⟩ Mode.Disabled State.On⟩

/-- C9: for a non-null source pixmap and a pixel `(x, y)` of it, the color that line 59
forms before darkening is valid and gray (red, green and blue all equal the gray
value `L` of line 58), the disabled pixel is that color darkened, and each of its
RGB channels is at most `L`, and less than `L` when `L` is not zero. -/
theorem setPixmap_gray_then_darker (e : CustomDisabledIconEngine) (p : QPixmap)
    (hp : p.isNull = false) (x y : Nat) (hx : x < p.width) (hy : y < p.height) :
    (QColor.fromRgba
        (grayOf (p.pixelColor x y).red (p.pixelColor x y).green (p.pixelColor x y).blue)
        (grayOf (p.pixelColor x y).red (p.pixelColor x y).green (p.pixelColor x y).blue)
        (grayOf (p.pixelColor x y).red (p.pixelColor x y).green (p.pixelColor x y).blue)
        (p.pixelColor x y).alpha)
      = ⟨true,
          grayOf (p.pixelColor x y).red (p.pixelColor x y).green (p.pixelColor x y).blue,
          grayOf (p.pixelColor x y).red (p.pixelColor x y).green (p.pixelColor x y).blue,
          grayOf (p.pixelColor x y).red (p.pixelColor x y).green (p.pixelColor x y).blue,
          (p.pixelColor x y).alpha⟩ ∧
    (e.setPixmap p).mDisabledPixmap.pixelColor x y
      = (QColor.fromRgba
          (grayOf (p.pixelColor x y).red (p.pixelColor x y).green (p.pixelColor x y).blue)
          (grayOf (p.pixelColor x y).red (p.pixelColor x y).green (p.pixelColor x y).blue)
          (grayOf (p.pixelColor x y).red (p.pixelColor x y).green (p.pixelColor x y).blue)
          (p.pixelColor x y).alpha).darker ∧
    ((e.setPixmap p).mDisabledPixmap.pixelColor x y).red
      ≤ grayOf (p.pixelColor x y).red (p.pixelColor x y).green (p.pixelColor x y).blue ∧
    ((e.setPixmap p).mDisabledPixmap.pixelColor x y).green
      ≤ grayOf (p.pixelColor x y).red (p.pixelColor x y).green (p.pixelColor x y).blue ∧
    ((e.setPixmap p).mDisabledPixmap.pixelColor x y).blue
      ≤ grayOf (p.pixelColor x y).red (p.pixelColor x y).green (p.pixelColor x y).blue ∧
    (grayOf (p.pixelColor x y).red (p.pixelColor x y).green (p.pixelColor x y).blue ≠ 0 →
      ((e.setPixmap p).mDisabledPixmap.pixelColor x y).red
        < grayOf (p.pixelColor x y).red (p.pixelColor x y).green (p.pixelColor x y).blue ∧
      ((e.setPixmap p).mDisabledPixmap.pixelColor x y).green
        < grayOf (p.pixelColor x y).red (p.pixelColor x y).green (p.pixelColor x y).blue ∧
      ((e.setPixmap p).mDisabledPixmap.pixelColor x y).blue
        < grayOf (p.pixelColor x y).red (p.pixelColor x y).green (p.pixelColor x y).blue) := by
  obtain ⟨hr, hg, hb, ha⟩ := pixelColor_channels p.toImage x y
  have hL := grayOf_le _ _ _ hr hg hb
  have hpre := fromRgba_of_le _ _ _ _ hL hL hL ha
  have hd : (e.setPixmap p).mDisabledPixmap.pixelColor x y = loopColor p.toImage x y := by
    rw [setPixmap_eq]; exact derive_pixelColor p hp x y hx hy
  have hd2 := hd
  rw [loopColor_eq] at hd2
  refine ⟨hpre, hd, ?_, ?_, ?_, fun hne => ⟨?_, ?_, ?_⟩⟩ <;>
    (rw [hd2]; simp only [QPixmap.pixelColor] at *; omega)

/-- C9 on the red pixmap: the gray value of the pixel `(0, 0)` is 76, not zero, and
the disabled pixel's red channel is below it. -/
theorem setPixmap_gray_then_darker_red :
    redPixmap.isNull = false ∧
    grayOf (redPixmap.pixelColor 0 0).red (redPixmap.pixelColor 0 0).green
      (redPixmap.pixelColor 0 0).blue = 76 ∧
    ((CustomDisabledIconEngine.new.setPixmap redPixmap).mDisabledPixmap.pixelColor 0 0).red
      < grayOf (redPixmap.pixelColor 0 0).red (redPixmap.pixelColor 0 0).green
          (redPixmap.pixelColor 0 0).blue :=
  ⟨by decide, by decide,
    ((setPixmap_gray_then_darker CustomDisabledIconEngine.new redPixmap (by decide) 0 0
      (by decide) (by decide)).2.2.2.2.2 (by decide)).1⟩

/-- C10 as stated fails: on the engine that holds the red pixmap, `paint` for the
`Normal` mode leaves an empty painter empty, where drawing the pixmap that `pixmap`
selects would leave one drawn pixmap. -/
theorem paint_does_not_draw :
    ((CustomDisabledIconEngine.new.setPixmap redPixmap).paint ⟨[]⟩ ⟨0, 0, 16, 16⟩
        Mode.Normal State.On).drawn.length = 0 ∧
    ((QPainter.mk []).drawPixmap ⟨0, 0, 16, 16⟩
        ((CustomDisabledIconEngine.new.setPixmap redPixmap).pixmap ⟨16, 16⟩ Mode.Normal
          State.On)).drawn.length = 1 ∧
    (CustomDisabledIconEngine.new.setPixmap redPixmap).paint ⟨[]⟩ ⟨0, 0, 16, 16⟩
        Mode.Normal State.On
      ≠ (QPainter.mk []).drawPixmap ⟨0, 0, 16, 16⟩
          ((CustomDisabledIconEngine.new.setPixmap redPixmap).pixmap ⟨16, 16⟩ Mode.Normal
            State.On) := by
  refine ⟨rfl, rfl, fun h => ?_⟩
  have hlen := congrArg (fun q : QPainter => q.drawn.length) h
  exact absurd hlen (by decide)

/-- C10, amended: `paint` is a stub that draws nothing; for every engine, painter, rect,
mode and state it leaves the painter as it was, and the call leaves every engine of
the heap as it was. -/
theorem paint_is_stub (decode : String → QPixmap) (e : CustomDisabledIconEngine)
    (painter : QPainter) (rect : QRect) (mode : Mode) (state : State) (h : Heap) (addr : Nat) :
    e.paint painter rect mode state = painter ∧
    h.call decode addr (Call.paint painter rect mode state) = h := by
  refine ⟨rfl, ?_⟩
  unfold Heap.call
  cases h[addr]? <;> rfl

/-! ## The pixel loop with its record of stores -/

theorem loopBodyLogged_image (oldImage : QImage) (x y : Nat) (s : LoopState) :
    (loopBodyLogged oldImage x y s).image
      = CustomDisabledIconEngine.loopBody oldImage x y s.image := rfl

theorem loopBodyLogged_written (oldImage : QImage) (x y : Nat) (s : LoopState)
    (hx : x < s.image.width) (hy : y < s.image.height) :
    (loopBodyLogged oldImage x y s).written = s.written ++ [(x, y)] := by
  have hv : (loopColor oldImage x y).isValid = true := loopColor_valid oldImage x y
  unfold loopColor at hv
  simp only [loopBodyLogged]
  simp [hx, hy, hv]

/-- The inner loop, as a fold with the record, over rows that are all inside the image. -/
theorem innerLogged_spec (oldImage : QImage) (x : Nat) (ys : List Nat) :
    ∀ s : LoopState, x < s.image.width → (∀ y ∈ ys, y < s.image.height) →
      ys.foldl (fun s y => loopBodyLogged oldImage x y s) s
        = ⟨ys.foldl (fun img y => CustomDisabledIconEngine.loopBody oldImage x y img) s.image,
            s.written ++ ys.map (fun y => (x, y))⟩ := by
  induction ys with
  | nil => intro s _ _; simp
  | cons y ys ih =>
    intro s hx hys
    have hy : y < s.image.height := hys y (List.mem_cons_self y ys)
    simp only [List.foldl_cons, List.map_cons]
    rw [ih (loopBodyLogged oldImage x y s)
      (by rw [loopBodyLogged_image, loopBody_width]; exact hx)
      (by
        intro y2 hy2
        rw [loopBodyLogged_image, loopBody_height]
        exact hys y2 (List.mem_cons_of_mem y hy2))]
    rw [loopBodyLogged_image, loopBodyLogged_written oldImage x y s hx hy]
    simp

/-- With enough fuel the inner `for` statement ends, and does what the fold over the
remaining rows does. -/
theorem forY_spec (oldImage : QImage) (x : Nat) (fuel : Nat) :
    ∀ (y : Nat) (s : LoopState), s.image.height - y < fuel →
      forY oldImage x fuel y s
        = some ((List.range' y (s.image.height - y)).foldl
            (fun s y => loopBodyLogged oldImage x y s) s) := by
  induction fuel with
  | zero => intro y s h; omega
  | succ fuel ih =>
    intro y s h
    unfold forY
    by_cases hy : y < s.image.height
    · have hh : (loopBodyLogged oldImage x y s).image.height = s.image.height := by
        rw [loopBodyLogged_image, loopBody_height]
      have hsplit : s.image.height - y = (s.image.height - (y + 1)) + 1 := by omega
      rw [if_pos hy, ih (y + 1) (loopBodyLogged oldImage x y s) (by rw [hh]; omega), hh]
      conv => rhs; rw [hsplit, List.range'_succ]
      simp
    · have hz : s.image.height - y = 0 := by omega
      rw [if_neg hy, hz]
      simp

theorem forY_from_zero (oldImage : QImage) (x : Nat) (fuel : Nat) (s : LoopState)
    (hx : x < s.image.width) (hf : s.image.height < fuel) :
    forY oldImage x fuel 0 s
      = some ⟨(List.range s.image.height).foldl
            (fun img y => CustomDisabledIconEngine.loopBody oldImage x y img) s.image,
          s.written ++ (List.range s.image.height).map (fun y => (x, y))⟩ := by
  rw [forY_spec oldImage x fuel 0 s (by omega), Nat.sub_zero, ← List.range_eq_range',
    innerLogged_spec oldImage x (List.range s.image.height) s hx
      (fun y hy => List.mem_range.mp hy)]

/-- With enough fuel the outer `for` statement ends, and does what the nested folds over
the remaining columns do. -/
theorem forX_spec (oldImage : QImage) (fuelY : Nat) (fuel : Nat) :
    ∀ (x : Nat) (s : LoopState), s.image.height < fuelY → s.image.width - x < fuel →
      forX oldImage fuelY fuel x s
        = some ⟨(List.range' x (s.image.width - x)).foldl
              (fun img x => (List.range img.height).foldl
                (fun img y => CustomDisabledIconEngine.loopBody oldImage x y img) img) s.image,
            s.written ++ (List.range' x (s.image.width - x)).flatMap
              (fun x => (List.range s.image.height).map (fun y => (x, y)))⟩ := by
  induction fuel with
  | zero => intro x s _ h; omega
  | succ fuel ih =>
    intro x s hfy h
    unfold forX
    by_cases hx : x < s.image.width
    · obtain ⟨hw1, hh1, _⟩ := innerLoop_spec oldImage x (List.range s.image.height) s.image
      have hsplit : s.image.width - x = (s.image.width - (x + 1)) + 1 := by omega
      rw [if_pos hx, forY_from_zero oldImage x fuelY s hx hfy]
      simp only []
      rw [ih (x + 1) _ (by simp only []; rw [hh1]; exact hfy)
        (by simp only []; rw [hw1]; omega)]
      simp only [hw1, hh1]
      conv => rhs; rw [hsplit, List.range'_succ]
      simp [List.append_assoc]
    · have hz : s.image.width - x = 0 := by omega
      rw [if_neg hx, hz]
      simp

/-- The pixel loop ends: with more fuel than the width and the height, the two `for`
statements started on `image` return the image of `pixelLoop` and have stored at the
coordinates `loopCoords`, in that order. -/
theorem forX_pixelLoop (oldImage image : QImage) (fuelY fuel : Nat)
    (hfy : image.height < fuelY) (hf : image.width < fuel) :
    forX oldImage fuelY fuel 0 ⟨image, []⟩
      = some ⟨CustomDisabledIconEngine.pixelLoop oldImage image,
          loopCoords image.width image.height⟩ := by
  rw [forX_spec oldImage fuelY fuel 0 ⟨image, []⟩ hfy (by simp only []; omega)]
  simp only [Nat.sub_zero, ← List.range_eq_range', List.nil_append]
  rfl

theorem loopCoords_nodup (w h : Nat) : (loopCoords w h).Nodup :=
  List.Nodup.product (List.nodup_range w) (List.nodup_range h)

theorem mem_loopCoords (w h x y : Nat) : (x, y) ∈ loopCoords w h ↔ x < w ∧ y < h := by
  unfold loopCoords
  simp [List.mem_flatMap, List.mem_map, List.mem_range]

theorem count_of_nodup_mem {α : Type} [BEq α] [LawfulBEq α] (a : α) :
    ∀ l : List α, l.Nodup → a ∈ l → l.count a = 1 := by
  intro l
  induction l with
  | nil => intro _ hm; cases hm
  | cons b l ih =>
    intro hn hm
    rw [List.nodup_cons] at hn
    rw [List.count_cons]
    by_cases hab : b = a
    · subst hab
      rw [List.count_eq_zero_of_not_mem hn.1]
      simp
    · have hm2 : a ∈ l := by
        rcases List.mem_cons.mp hm with h | h
        · exact absurd h.symm hab
        · exact h
      rw [ih hn.2 hm2]
      simp [hab]

/-- Every coordinate inside a `w × h` image occurs once in `loopCoords`, and no other
coordinate occurs. -/
theorem count_loopCoords (w h x y : Nat) :
    (loopCoords w h).count (x, y) = if x < w ∧ y < h then 1 else 0 := by
  split
  · rename_i hin
    exact count_of_nodup_mem (x, y) (loopCoords w h) (loopCoords_nodup w h)
      ((mem_loopCoords w h x y).mpr hin)
  · rename_i hout
    exact List.count_eq_zero_of_not_mem (fun hm => hout ((mem_loopCoords w h x y).mp hm))

/-! ## Further properties of the engine -/

/-- C11: `addFile(path, size, mode, state)` leaves the engine in the state that
`setPixmap(decode(path))` leaves it in, whatever the size, mode and state are; when
decoding fails (the decoder yields a null pixmap) the source pixmap and the disabled
pixmap both become that null pixmap. -/
theorem addFile_is_setPixmap (decode : String → QPixmap) (e : CustomDisabledIconEngine)
    (fileName : String) (size : QSize) (mode : Mode) (state : State) :
    e.addFile decode fileName size mode state = e.setPixmap (decode fileName) ∧
    ((decode fileName).isNull = true →
      (e.addFile decode fileName size mode state).mPixmap = decode fileName ∧
      (e.addFile decode fileName size mode state).mDisabledPixmap = decode fileName ∧
      (e.addFile decode fileName size mode state).mPixmap.isNull = true ∧
      (e.addFile decode fileName size mode state).mDisabledPixmap.isNull = true) := by
  refine ⟨rfl, fun hn => ?_⟩
  have h1 : (e.addFile decode fileName size mode state).mPixmap = decode fileName := by
    unfold CustomDisabledIconEngine.addFile; rw [setPixmap_eq]
  have h2 : (e.addFile decode fileName size mode state).mDisabledPixmap = decode fileName := by
    unfold CustomDisabledIconEngine.addFile; rw [setPixmap_eq]; exact derive_null _ hn
  exact ⟨h1, h2, by rw [h1]; exact hn, by rw [h2]; exact hn⟩

/-- C11 on an engine that holds the red pixmap, with a decoder for which every file
fails to load: both pixmaps are null afterwards. -/
theorem addFile_is_setPixmap_noFile :
    (noFile "missing.png").isNull = true ∧
    ((CustomDisabledIconEngine.new.setPixmap redPixmap).addFile noFile "missing.png"
      ⟨16, 16⟩ Mode.Normal State.Off).mPixmap.isNull = true ∧
    ((CustomDisabledIconEngine.new.setPixmap redPixmap).addFile noFile "missing.png"
      ⟨16, 16⟩ Mode.Normal State.Off).mDisabledPixmap.isNull = true :=
  ⟨by decide,
    ((addFile_is_setPixmap noFile (CustomDisabledIconEngine.new.setPixmap redPixmap)
      "missing.png" ⟨16, 16⟩ Mode.Normal State.Off).2 (by decide)).2.2.1,
    ((addFile_is_setPixmap noFile (CustomDisabledIconEngine.new.setPixmap redPixmap)
      "missing.png" ⟨16, 16⟩ Mode.Normal State.Off).2 (by decide)).2.2.2⟩

/-- C12: `derive` is not idempotent.  For the image of the single opaque pixel
`(255, 0, 0, 255)`, which is not null, the derived pixel is `(38, 38, 38, 255)` and
deriving again gives `(19, 19, 19, 255)`, so `derive (derive I)` differs from
`derive I`. -/
theorem derive_not_idempotent :
    (onePixel 255 0 0 255).isNull = false ∧
    (derive (onePixel 255 0 0 255)).pixelColor 0 0 = ⟨true, 38, 38, 38, 255⟩ ∧
    (derive (derive (onePixel 255 0 0 255))).pixelColor 0 0 = ⟨true, 19, 19, 19, 255⟩ ∧
    derive (derive (onePixel 255 0 0 255)) ≠ derive (onePixel 255 0 0 255) ∧
    ∃ I : QPixmap, I.isNull = false ∧ derive (derive I) ≠ derive I := by
  have hne : derive (derive (onePixel 255 0 0 255)) ≠ derive (onePixel 255 0 0 255) := by
    intro h
    have hpix := congrArg (fun q : QPixmap => q.pixelColor 0 0) h
    exact absurd hpix (by decide)
  exact ⟨by decide, by decide, by decide, hne, onePixel 255 0 0 255, by decide, hne⟩

/-- C13: the state after `setPixmap(p)` depends on `p` alone: it is the state of a
freshly constructed engine after `setPixmap(p)`.  So `setPixmap(p)` twice in a row
gives the state that one call gives, and of two successive calls only the last one
shows. -/
theorem setPixmap_depends_on_argument (e : CustomDisabledIconEngine) (p : QPixmap) :
    e.setPixmap p = CustomDisabledIconEngine.new.setPixmap p ∧
    (e.setPixmap p).setPixmap p = e.setPixmap p ∧
    ∀ q : QPixmap, (e.setPixmap q).setPixmap p = e.setPixmap p := by
  refine ⟨?_, ?_, fun q => ?_⟩ <;> simp only [setPixmap_eq]

/-- C14: for a non-null source pixmap of width `w` and height `h`, the pixel loop of
`setPixmap` (the two `for` statements, run with more fuel than `w` and `h`) ends; its
image is the disabled pixmap that `setPixmap` stores, and its stores are at the
coordinates `loopCoords w h`, a list that holds once every coordinate `(x, y)` with
`x < w` and `y < h` and holds no other coordinate. -/
theorem pixel_loop_terminates (e : CustomDisabledIconEngine) (p : QPixmap)
    (hp : p.isNull = false) (fuelY fuel : Nat) (hfy : p.height < fuelY) (hf : p.width < fuel) :
    forX p.toImage fuelY fuel 0 ⟨QImage.create p.size, []⟩
      = some ⟨(e.setPixmap p).mDisabledPixmap.toImage, loopCoords p.width p.height⟩ ∧
    ∀ x y : Nat,
      (loopCoords p.width p.height).count (x, y) = if x < p.width ∧ y < p.height then 1 else 0 := by
  refine ⟨?_, fun x y => count_loopCoords p.width p.height x y⟩
  have hd : (e.setPixmap p).mDisabledPixmap.toImage
      = CustomDisabledIconEngine.pixelLoop p.toImage (QImage.create p.size) := by
    rw [setPixmap_eq, derive_eq]
    simp [hp, QPixmap.toImage, QPixmap.fromImage]
  rw [hd]
  exact forX_pixelLoop p.toImage (QImage.create p.size) fuelY fuel hfy hf

/-- C14 on the red 2 × 2 pixmap, with fuel 3 for each loop: the loop ends with the
four stores `(0,0)`, `(0,1)`, `(1,0)`, `(1,1)`; `(1, 1)` is stored once and `(2, 0)`
never. -/
theorem pixel_loop_terminates_red :
    redPixmap.isNull = false ∧ redPixmap.height < 3 ∧ redPixmap.width < 3 ∧
    loopCoords redPixmap.width redPixmap.height = [(0, 0), (0, 1), (1, 0), (1, 1)] ∧
    forX redPixmap.toImage 3 3 0 ⟨QImage.create redPixmap.size, []⟩
      = some ⟨(CustomDisabledIconEngine.new.setPixmap redPixmap).mDisabledPixmap.toImage,
          loopCoords redPixmap.width redPixmap.height⟩ ∧
    (loopCoords redPixmap.width redPixmap.height).count (1, 1) = 1 ∧
    (loopCoords redPixmap.width redPixmap.height).count (2, 0) = 0 :=
  ⟨by decide, by decide, by decide, by decide,
    (pixel_loop_terminates CustomDisabledIconEngine.new redPixmap (by decide) 3 3
      (by decide) (by decide)).1,
    (pixel_loop_terminates CustomDisabledIconEngine.new redPixmap (by decide) 3 3
      (by decide) (by decide)).2 1 1,
    (pixel_loop_terminates CustomDisabledIconEngine.new redPixmap (by decide) 3 3
      (by decide) (by decide)).2 2 0⟩

/-- C15: for channels `R`, `G`, `B` (and an alpha) in 0..255 the gray value `L` of line 58
lies in 0..255, so the constructor of line 59 builds the valid color `(L, L, L, A)`,
its darker color is valid too, and `setPixelColor` never takes its invalid-color
branch: for every image and every coordinate the color of the loop body is valid. -/
theorem gray_in_range (r g b a : Nat) (hr : r ≤ 255) (hg : g ≤ 255) (hb : b ≤ 255)
    (ha : a ≤ 255) :
    0 ≤ grayOf r g b ∧ grayOf r g b ≤ 255 ∧
    QColor.fromRgba (grayOf r g b) (grayOf r g b) (grayOf r g b) a
      = ⟨true, grayOf r g b, grayOf r g b, grayOf r g b, a⟩ ∧
    (QColor.fromRgba (grayOf r g b) (grayOf r g b) (grayOf r g b) a).isValid = true ∧
    (QColor.fromRgba (grayOf r g b) (grayOf r g b) (grayOf r g b) a).darker.isValid = true ∧
    ∀ (oldImage : QImage) (x y : Nat),
      (QColor.fromRgba
        (grayOf (oldImage.pixelColor x y).red (oldImage.pixelColor x y).green
          (oldImage.pixelColor x y).blue)
        (grayOf (oldImage.pixelColor x y).red (oldImage.pixelColor x y).green
          (oldImage.pixelColor x y).blue)
        (grayOf (oldImage.pixelColor x y).red (oldImage.pixelColor x y).green
          (oldImage.pixelColor x y).blue)
        (oldImage.pixelColor x y).alpha).darker.isValid = true := by
  have hL := grayOf_le r g b hr hg hb
  have hpre := fromRgba_of_le _ _ _ _ hL hL hL ha
  refine ⟨Nat.zero_le _, hL, hpre, ?_, ?_, fun oldImage x y => ?_⟩
  · rw [hpre]; rfl
  · rw [hpre]; rfl
  · exact loopColor_valid oldImage x y

/-- C15 on the brightest pixel `(255, 255, 255, 255)`: the gray value is 255. -/
theorem gray_in_range_white :
    (255 : Nat) ≤ 255 ∧ grayOf 255 255 255 = 255 ∧ grayOf 255 255 255 ≤ 255 ∧
    (QColor.fromRgba (grayOf 255 255 255) (grayOf 255 255 255) (grayOf 255 255 255)
      255).isValid = true :=
  ⟨by decide, by decide,
    (gray_in_range 255 255 255 255 (by decide) (by decide) (by decide) (by decide)).2.1,
    (gray_in_range 255 255 255 255 (by decide) (by decide) (by decide) (by decide)).2.2.2.1⟩

/-- C16 as stated fails: for the gray pixel `(2, 2, 2, 255)` line 58 yields 1, not 2,
and the disabled pixel is `(0, 0, 0, 255)`, not `(1, 1, 1, 255)`. -/
theorem gray_pixel_not_kept :
    grayOf 2 2 2 = 1 ∧
    (derive (onePixel 2 2 2 255)).pixelColor 0 0 = ⟨true, 0, 0, 0, 255⟩ ∧
    (derive (onePixel 2 2 2 255)).pixelColor 0 0 ≠ ⟨true, 2 / 2, 2 / 2, 2 / 2, 255⟩ ∧
    ¬ (∀ v : Nat, v ≤ 255 → grayOf v v v = v) := by
  refine ⟨by decide, by decide, by decide, fun h => ?_⟩
  exact absurd (h 2 (by decide)) (by decide)

/-- C16, amended: for a source pixel that is already gray, `(v, v, v, A)`, the gray
value `L` of line 58 is `v` or `v - 1`, and the disabled pixel is `(L/2, L/2, L/2, A)`:
that is `(v/2, v/2, v/2, A)` when `v` is odd or `L = v`, and one less in each color
channel when `v` is even and `L = v - 1`.  An opaque white pixel has `L = 255` and maps
to `(127, 127, 127, 255)`. -/
theorem gray_pixel_halved (e : CustomDisabledIconEngine) (p : QPixmap) (hp : p.isNull = false)
    (x y : Nat) (hx : x < p.width) (hy : y < p.height) (v A : Nat)
    (hc : p.pixelColor x y = ⟨true, v, v, v, A⟩) :
    (grayOf v v v = v ∨ grayOf v v v + 1 = v) ∧
    (e.setPixmap p).mDisabledPixmap.pixelColor x y
      = ⟨true, grayOf v v v / 2, grayOf v v v / 2, grayOf v v v / 2, A⟩ ∧
    (v % 2 = 1 ∨ grayOf v v v = v → grayOf v v v / 2 = v / 2) ∧
    (v % 2 = 0 ∧ grayOf v v v + 1 = v → grayOf v v v / 2 + 1 = v / 2) ∧
    grayOf 255 255 255 = 255 ∧
    (derive (onePixel 255 255 255 255)).pixelColor 0 0 = ⟨true, 127, 127, 127, 255⟩ := by
  obtain ⟨hr, _, _, _⟩ := pixelColor_channels p.toImage x y
  have hc2 : p.toImage.pixelColor x y = ⟨true, v, v, v, A⟩ := hc
  rw [hc2] at hr
  simp only at hr
  have h1 := roundDouble_near (lit0299 * v) (by unfold lit0299; omega)
  have h2 := roundDouble_near (lit0587 * v) (by unfold lit0587; omega)
  have h3 := roundDouble_near (lit0114 * v) (by unfold lit0114; omega)
  unfold lit0299 at h1
  unfold lit0587 at h2
  unfold lit0114 at h3
  have h4 := roundDouble_near
    (roundDouble (21545220617340452 * v) + roundDouble (42297807700263696 * v)) (by omega)
  have h5 := roundDouble_near
    (roundDouble (roundDouble (21545220617340452 * v) + roundDouble (42297807700263696 * v))
      + roundDouble (8214565720323785 * v)) (by omega)
  have hL : grayOf v v v = v ∨ grayOf v v v + 1 = v := by
    unfold grayOf doubleToInt doubleAdd doubleMulInt doubleScale lit0299 lit0587 lit0114
    omega
  have hd : (e.setPixmap p).mDisabledPixmap.pixelColor x y
      = ⟨true, grayOf v v v / 2, grayOf v v v / 2, grayOf v v v / 2, A⟩ := by
    rw [setPixmap_eq]
    simp only []
    rw [derive_pixelColor p hp x y hx hy, loopColor_eq, hc2]
    simp only [QColor.mk.injEq, true_and]
    refine ⟨?_, ?_, ?_, trivial⟩ <;> omega
  refine ⟨hL, hd, fun h => ?_, fun h => ?_, by decide, by decide⟩
  · omega
  · omega

/-- C16, amended, on the gray pixel `(2, 2, 2, 255)`: `L = 1` and the disabled pixel is
`(0, 0, 0, 255)`. -/
theorem gray_pixel_halved_two :
    (onePixel 2 2 2 255).isNull = false ∧
    (onePixel 2 2 2 255).pixelColor 0 0 = ⟨true, 2, 2, 2, 255⟩ ∧
    grayOf 2 2 2 + 1 = 2 ∧
    (CustomDisabledIconEngine.new.setPixmap (onePixel 2 2 2 255)).mDisabledPixmap.pixelColor 0 0
      = ⟨true, grayOf 2 2 2 / 2, grayOf 2 2 2 / 2, grayOf 2 2 2 / 2, 255⟩ :=
  ⟨by decide, by decide, by decide,
    (gray_pixel_halved CustomDisabledIconEngine.new (onePixel 2 2 2 255) (by decide) 0 0
      (by decide) (by decide) 2 255 (by decide)).2.1⟩

/-- C17: `addPixmap(p, mode, state)` leaves the engine in the state that `setPixmap(p)`
leaves it in, whatever the mode and state are; so a pixmap added for the mode `Disabled`
becomes the source pixmap, and the disabled pixmap is derived from it. -/
theorem addPixmap_is_setPixmap (e : CustomDisabledIconEngine) (p : QPixmap) (mode : Mode)
    (state : State) :
    e.addPixmap p mode state = e.setPixmap p ∧
    (e.addPixmap p Mode.Disabled state).mPixmap = p ∧
    (e.addPixmap p Mode.Disabled state).mDisabledPixmap = derive p ∧
    ∀ size : QSize,
      (e.addPixmap p Mode.Disabled state).pixmap size Mode.Disabled state = derive p := by
  refine ⟨rfl, ?_, ?_, fun size => ?_⟩ <;>
    simp [CustomDisabledIconEngine.addPixmap, CustomDisabledIconEngine.pixmap, setPixmap_eq]

/-- C18: for a non-null source pixmap, the red, green and blue channel of every pixel
of the disabled pixmap lie in 0..127. -/
theorem disabled_channels_le (e : CustomDisabledIconEngine) (p : QPixmap)
    (hp : p.isNull = false) (x y : Nat) (hx : x < p.width) (hy : y < p.height) :
    ((e.setPixmap p).mDisabledPixmap.pixelColor x y).red ≤ 127 ∧
    ((e.setPixmap p).mDisabledPixmap.pixelColor x y).green ≤ 127 ∧
    ((e.setPixmap p).mDisabledPixmap.pixelColor x y).blue ≤ 127 := by
  obtain ⟨hr, hg, hb, _⟩ := pixelColor_channels p.toImage x y
  have hL := grayOf_le _ _ _ hr hg hb
  rw [setPixmap_eq]
  simp only []
  rw [derive_pixelColor p hp x y hx hy, loopColor_eq]
  simp only []
  refine ⟨?_, ?_, ?_⟩ <;> omega

/-- C18 on the opaque white pixel, the brightest source color: the disabled pixel's
channels are 127. -/
theorem disabled_channels_le_white :
    (onePixel 255 255 255 255).isNull = false ∧
    (CustomDisabledIconEngine.new.setPixmap (onePixel 255 255 255 255)).mDisabledPixmap.pixelColor
      0 0 = ⟨true, 127, 127, 127, 255⟩ ∧
    ((CustomDisabledIconEngine.new.setPixmap
      (onePixel 255 255 255 255)).mDisabledPixmap.pixelColor 0 0).red ≤ 127 :=
  ⟨by decide, by decide,
    (disabled_channels_le CustomDisabledIconEngine.new (onePixel 255 255 255 255) (by decide)
      0 0 (by decide) (by decide)).1⟩

end RedPanda
